import Mathlib

/-!
Verification of "The Force" programming-language implementation.

Shallow embedding of the relevant parts of `force_compiler.py` and
`secure_force_demo.py`: the regex-based source-to-Python translation
steps, the runtime built-in library (stacks, queues, text processing,
the shift cipher, arithmetic-by-name), the security validator, the
restricted execution environment, and the sliding-window rate limiter.

Machine strings are modelled as Lean `String`/`List Char`; Python
`time.time()` float timestamps are modelled as rationals; Python lists
and `collections.deque` as Lean lists.
-/

/-! ## Character class helpers (Python `\s`, `\w`, `\d` on the ASCII fragment) -/

/-- Python regex `\s` (ASCII fragment): space, tab, newline, vertical tab,
form feed, carriage return. -/
def isPySpace (c : Char) : Bool :=
  c == ' ' || c == '\t' || c == '\n' || c == '\x0b' || c == '\x0c' || c == '\r'

/-- Python regex `\w` (ASCII fragment): letters, digits, underscore. -/
def isWordChar (c : Char) : Bool :=
  ('a' ≤ c && c ≤ 'z') || ('A' ≤ c && c ≤ 'Z') || ('0' ≤ c && c ≤ '9') || c == '_'

/-- Python regex `\d`. -/
def isDigitChar (c : Char) : Bool :=
  '0' ≤ c && c ≤ '9'

/-- `pat` occurs as a contiguous sublist of `s` (Python `pat in s`). -/
def listContains (pat : List Char) : List Char → Bool
  | [] => pat.isPrefixOf []
  | c :: t => pat.isPrefixOf (c :: t) || listContains pat t

/-- Python `s.startswith(pre)`. -/
def strStarts (pre s : String) : Bool :=
  pre.data.isPrefixOf s.data

/-! ## Stack and queue built-ins

From `force_compiler.py`, `ForceRuntime._force_stack` (lines 477-501) and
`ForceRuntime._force_queue` (lines 503-528).  The Python `list` backing the
stack and the `collections.deque` backing the queue are both modelled as a
Lean list; for the stack the end of the list is the top (Python `append`/
`pop` work at the end), for the queue the head of the list is the front
(`popleft`/`[0]` work at the front). -/

structure ForceStack (α : Type) where
  items : List α
deriving DecidableEq

/-- `_force_stack(initial_items)`: `list(initial_items) if initial_items else []`
(`None` and the empty list are both falsy). -/
def forceStack {α : Type} (initial : Option (List α)) : ForceStack α :=
  ⟨match initial with
    | some l => if l.isEmpty then [] else l
    | none => []⟩

/-- `push`: `self.items.append(item)`. -/
def ForceStack.push {α : Type} (s : ForceStack α) (x : α) : ForceStack α :=
  ⟨s.items ++ [x]⟩

/-- `pop`: `self.items.pop() if self.items else None` — removes and returns
the last element, or returns `None` leaving the stack untouched. -/
def ForceStack.pop {α : Type} (s : ForceStack α) : Option α × ForceStack α :=
  match s.items.getLast? with
  | none => (none, s)
  | some v => (some v, ⟨s.items.dropLast⟩)

/-- `peek`: `self.items[-1] if self.items else None`. -/
def ForceStack.peek {α : Type} (s : ForceStack α) : Option α :=
  s.items.getLast?

/-- `size`: `len(self.items)`. -/
def ForceStack.size {α : Type} (s : ForceStack α) : Nat :=
  s.items.length

/-- `is_empty`: `len(self.items) == 0`. -/
def ForceStack.is_empty {α : Type} (s : ForceStack α) : Bool :=
  s.items.length == 0

structure ForceQueue (α : Type) where
  items : List α
deriving DecidableEq

/-- `_force_queue(initial_items)`: `deque(initial_items) if initial_items else deque()`. -/
def forceQueue {α : Type} (initial : Option (List α)) : ForceQueue α :=
  ⟨match initial with
    | some l => if l.isEmpty then [] else l
    | none => []⟩

/-- `enqueue`: `self.items.append(item)` (append at the back of the deque). -/
def ForceQueue.enqueue {α : Type} (q : ForceQueue α) (x : α) : ForceQueue α :=
  ⟨q.items ++ [x]⟩

/-- `dequeue`: `self.items.popleft() if self.items else None`. -/
def ForceQueue.dequeue {α : Type} (q : ForceQueue α) : Option α × ForceQueue α :=
  match q.items with
  | [] => (none, q)
  | x :: rest => (some x, ⟨rest⟩)

/-- `front`: `self.items[0] if self.items else None`. -/
def ForceQueue.front {α : Type} (q : ForceQueue α) : Option α :=
  q.items.head?

/-- `size`: `len(self.items)`. -/
def ForceQueue.size {α : Type} (q : ForceQueue α) : Nat :=
  q.items.length

/-! ## The shift cipher

From `force_compiler.py`, the `simple_cipher` branch of
`ForceRuntime._force_encryption` (lines 613-623).  Python's Unicode-aware
`str.isalpha`/`str.islower` are modelled on the ASCII fragment, which is the
fragment the Caesar-shift arithmetic (`ord('a')`/`ord('A')` offsets) is
written for. -/

def isAsciiLower (c : Char) : Bool :=
  97 ≤ c.toNat && c.toNat ≤ 122

def isAsciiUpper (c : Char) : Bool :=
  65 ≤ c.toNat && c.toNat ≤ 90

def isAsciiAlpha (c : Char) : Bool :=
  isAsciiLower c || isAsciiUpper c

/-- `shift = len(key) if key else 3`: a `None` key and an empty-string key
are both falsy, so both give shift 3. -/
def cipherShift (key : Option String) : Nat :=
  match key with
  | none => 3
  | some k => if k.isEmpty then 3 else k.length

/-- One character of the cipher loop body:
`chr((ord(char) - ascii_offset + shift) % 26 + ascii_offset)` when the
character is alphabetic, the character itself otherwise. -/
def cipherChar (shift : Nat) (c : Char) : Char :=
  if isAsciiAlpha c then
    let off : Nat := if isAsciiLower c then 97 else 65
    Char.ofNat ((c.toNat - off + shift) % 26 + off)
  else c

/-- The `simple_cipher` branch: builds the result character by character. -/
def simpleCipher (data : String) (key : Option String) : String :=
  ⟨data.data.map (cipherChar (cipherShift key))⟩

/-! ## The restricted execution environment

From `secure_force_demo.py`: `ForceSecurityConfig.SAFE_BUILTINS` (lines
38-44) and `SecureForceInterpreter.create_safe_environment` (lines 162-176).
Each name bound in the runtime's global table (`ForceRuntime.__init__`,
`force_compiler.py` lines 349-393) is tagged with the host capabilities its
body exercises, read off the source of the corresponding `_force_*` method:
  * `_force_read_file` / `_force_write_file` call `open(filename, ...)`
    (lines 436, 445): they open host files;
  * `_force_json`'s `'load'` and `'save'` operations call `open(f, 'r')` /
    `open(f, 'w')` (lines 537-538): it opens host files;
  * `_force_http` issues `requests.get/post/put/delete` (lines 579-586):
    it performs network requests;
  * every other entry touches neither files nor the network. -/

structure Capability where
  opensHostFile : Bool
  opensNetwork : Bool
deriving DecidableEq

/-- The operation table of `_force_json` (lines 534-539), with each
operation tagged by whether its lambda calls `open`. -/
def forceJsonOps : List (String × Bool) :=
  [("stringify", false), ("parse", false), ("load", true), ("save", true)]

/-- Whether a given `_force_json` operation opens a host file. -/
def jsonOpOpensFile (op : String) : Bool :=
  ((forceJsonOps.find? (fun p => p.1 == op)).map (fun p => p.2)).getD false

/-- `ForceRuntime.__init__`: the `self.globals` table, in source order, with
the capability tags described above.  `force_json` is tagged as opening host
files because its `load`/`save` operations do. -/
def runtimeGlobals : List (String × Capability) :=
  [("force_power", ⟨false, false⟩),
   ("force_random", ⟨false, false⟩),
   ("force_distance", ⟨false, false⟩),
   ("force_math_sqrt", ⟨false, false⟩),
   ("force_math_abs", ⟨false, false⟩),
   ("force_math_round", ⟨false, false⟩),
   ("force_math_max", ⟨false, false⟩),
   ("force_math_min", ⟨false, false⟩),
   ("force_math_sum", ⟨false, false⟩),
   ("force_format", ⟨false, false⟩),
   ("force_text", ⟨false, false⟩),
   ("force_regex", ⟨false, false⟩),
   ("force_read_file", ⟨true, false⟩),
   ("force_write_file", ⟨true, false⟩),
   ("force_generator", ⟨false, false⟩),
   ("force_stack", ⟨false, false⟩),
   ("force_queue", ⟨false, false⟩),
   ("force_json", ⟨jsonOpOpensFile "load" || jsonOpOpensFile "save", false⟩),
   ("force_ternary", ⟨false, false⟩),
   ("force_switch", ⟨false, false⟩),
   ("force_datetime", ⟨false, false⟩),
   ("force_http", ⟨false, true⟩),
   ("force_encryption", ⟨false, false⟩),
   ("force_hash_func", ⟨false, false⟩)]

/-- `ForceSecurityConfig.SAFE_BUILTINS`: the allow-listed Python built-ins.
None of them opens files or the network. -/
def safeBuiltins : List (String × Capability) :=
  [("abs", ⟨false, false⟩), ("bool", ⟨false, false⟩), ("dict", ⟨false, false⟩),
   ("float", ⟨false, false⟩), ("int", ⟨false, false⟩), ("len", ⟨false, false⟩),
   ("list", ⟨false, false⟩), ("max", ⟨false, false⟩), ("min", ⟨false, false⟩),
   ("print", ⟨false, false⟩), ("range", ⟨false, false⟩), ("str", ⟨false, false⟩),
   ("sum", ⟨false, false⟩), ("tuple", ⟨false, false⟩), ("zip", ⟨false, false⟩),
   ("round", ⟨false, false⟩), ("sorted", ⟨false, false⟩),
   ("enumerate", ⟨false, false⟩)]

/-- The deny substrings of `create_safe_environment` (line 173):
`['file', 'read', 'write', 'http', 'system']`. -/
def dangerWords : List String :=
  ["file", "read", "write", "http", "system"]

/-- The environment built by `create_safe_environment`: the safe built-ins
under the `__builtins__` key, plus every runtime global whose name starts
with `force_` and contains none of the deny substrings. -/
structure SafeEnv where
  builtins : List (String × Capability)
  toplevel : List (String × Capability)
deriving DecidableEq

def createSafeEnvironment : SafeEnv :=
  ⟨safeBuiltins,
   runtimeGlobals.filter (fun p =>
     strStarts "force_" p.1 &&
     !(dangerWords.any (fun d => listContains d.data p.1.data)))⟩

/-! ## The input validator and secure compilation

From `secure_force_demo.py`: `ForceSecurityConfig` limits (lines 30-58),
`InputValidator.validate_force_code` (lines 104-151) and
`SecureForceInterpreter.secure_compile` (lines 178-204).

The forbidden and suspicious regex patterns are fixed alternation-free
concatenations of literals, whitespace runs and digit runs; they are
modelled by a small deterministic token-sequence matcher.  For these
patterns maximal munch is equivalent to the backtracking regex semantics:
every `\s*`/`\s+`/`\d+` run is followed by a token that cannot start with a
character of the run's class. -/

def MAX_CODE_SIZE : Nat := 10000

inductive RTok where
  | lit (s : String)
  | wsPlus
  | wsStar
  | digitsAtLeast (n : Nat)

/-- Match a token sequence at the head of `s` (maximal munch). -/
def matchToks : List RTok → List Char → Bool
  | [], _ => true
  | .lit w :: ps, s =>
      if w.data.isPrefixOf s then matchToks ps (s.drop w.data.length) else false
  | .wsPlus :: ps, s =>
      match s with
      | [] => false
      | c :: t => if isPySpace c then matchToks ps (t.dropWhile isPySpace) else false
  | .wsStar :: ps, s => matchToks ps (s.dropWhile isPySpace)
  | .digitsAtLeast n :: ps, s =>
      if (s.takeWhile isDigitChar).length < n then false
      else matchToks ps (s.dropWhile isDigitChar)

/-- `re.search`: does the token sequence match at any position? -/
def searchToks (ps : List RTok) : List Char → Bool
  | [] => matchToks ps []
  | c :: t => matchToks ps (c :: t) || searchToks ps t

/-- `FORBIDDEN_PATTERNS` (lines 47-58), searched with `re.IGNORECASE`
(the text is lowercased before searching; the patterns are lowercase). -/
def forbiddenPatterns : List (List RTok) :=
  [[.lit "import", .wsPlus, .lit "os"],
   [.lit "import", .wsPlus, .lit "sys"],
   [.lit "import", .wsPlus, .lit "subprocess"],
   [.lit "__import__"],
   [.lit "exec", .wsStar, .lit "("],
   [.lit "eval", .wsStar, .lit "("],
   [.lit "compile", .wsStar, .lit "("],
   [.lit "open", .wsStar, .lit "("],
   [.lit "file", .wsStar, .lit "("],
   [.lit "input", .wsStar, .lit "("]]

/-- The suspicious patterns (lines 141-145).  The first pattern's leading
`[\w\s]*` can always match the empty string, so its presence does not
change whether a search succeeds; it is dropped. -/
def suspiciousPatterns : List (List RTok) :=
  [[.lit "*", .wsStar, .digitsAtLeast 4],
   [.lit "while", .wsPlus, .lit "True", .wsStar, .lit ":"],
   [.lit "[", .wsStar, .digitsAtLeast 1, .wsStar, .lit "]", .wsStar, .lit "*",
    .wsStar, .digitsAtLeast 3]]

/-- Lowercase a string (ASCII), modelling `re.IGNORECASE` matching. -/
def strLower (s : String) : String :=
  ⟨s.data.map Char.toLower⟩

/-- The brace-nesting scan of `validate_force_code` (lines 128-135): running
depth (may go negative) and maximum depth reached. -/
def maxBraceDepth (code : String) : Int :=
  (code.data.foldl
    (fun (p : Int × Int) c =>
      if c = '{' then (p.1 + 1, max p.2 (p.1 + 1))
      else if c = '}' then (p.1 - 1, p.2)
      else p)
    (0, 0)).2

inductive VErr where
  | tooLarge (n : Nat)
  | forbidden
  | tooDeep
  | suspicious
deriving DecidableEq

/-- `InputValidator.validate_force_code`: size check, forbidden-pattern
check, nesting check, suspicious-pattern check, in source order; the first
failing check raises. -/
def validateForceCode (code : String) : Except VErr Unit :=
  if code.length > MAX_CODE_SIZE then .error (.tooLarge code.length)
  else if forbiddenPatterns.any (fun p => searchToks p (strLower code).data) then
    .error .forbidden
  else if maxBraceDepth code > 15 then .error .tooDeep
  else if suspiciousPatterns.any (fun p => searchToks p code.data) then
    .error .suspicious
  else .ok ()

inductive CompileOutcome where
  | compiled (pythonCode : String)
  | rejected (errorType : String) (e : VErr)
deriving DecidableEq

/-- `SecureForceInterpreter.secure_compile`, parameterized by the translation
function: validation runs first, and `translate_to_python` is applied only
when validation succeeds (`SecurityError`/`ValueError` are reported with
`error_type = 'security'`). -/
def secureCompileWith (translate : String → String) (code : String) : CompileOutcome :=
  match validateForceCode code with
  | .ok _ => .compiled (translate code)
  | .error e => .rejected "security" e

/-! ## Regex substitutions of `ForceParser.translate_to_python`

The `train`-loop rewrite (lines 193-197), the `jedi_mind_trick` ternary
rewrite (`special_patterns`, line 95) and the `force_calculate` rewrite
(line 101 with `_handle_calculate`, lines 155-177) are `re.sub` calls with
fixed patterns built from literals, `\s*`/`\s+` runs, `\w+`/`\d+` groups,
negated classes `[^,]+`/`[^)]+` followed by that very character, and
backreferences.  For such patterns the backtracking regex semantics is
deterministic maximal munch (each greedy run is followed by a token that no
character of the run can start), so each pattern is modelled by a
deterministic matcher over `List Char`.  `re.sub` replaces non-overlapping
matches left to right and does not rescan replacement text, which is what
`reSubScan` does. -/

def dropSpaces (s : List Char) : List Char :=
  s.dropWhile isPySpace

/-- Expect one fixed character. -/
def expectChar (c : Char) : List Char → Option (List Char)
  | [] => none
  | x :: t => if x = c then some t else none

/-- Expect a fixed literal (also used for backreferences). -/
def expectLit (w : List Char) (s : List Char) : Option (List Char) :=
  if w.isPrefixOf s then some (s.drop w.length) else none

/-- `\s+`: at least one whitespace character, maximal munch. -/
def expectSpace1 : List Char → Option (List Char)
  | [] => none
  | c :: t => if isPySpace c then some (t.dropWhile isPySpace) else none

/-- A nonempty maximal run of characters of a class (`\w+`, `\d+`). -/
def takeClass (p : Char → Bool) (s : List Char) : Option (List Char × List Char) :=
  let g := s.takeWhile p
  if g.isEmpty then none else some (g, s.dropWhile p)

/-- A nonempty `[^c]+` group followed by the character `c` itself, which is
consumed (the shape `([^,]+),` and `([^)]+)\)` of the patterns). -/
def takeGroupThen (stop : Char) (s : List Char) : Option (List Char × List Char) :=
  match s.dropWhile (fun c => c != stop) with
  | [] => none
  | _ :: rest =>
      if (s.takeWhile (fun c => c != stop)).isEmpty then none
      else some (s.takeWhile (fun c => c != stop), rest)

/-- The ternary pattern
`jedi_mind_trick\s*\(\s*([^,]+),\s*([^,]+),\s*([^)]+)\)` with replacement
`(\2 if \1 else \3)` (special_patterns, line 95). -/
def matchTernaryAt (s : List Char) : Option (String × List Char) := do
  let s ← expectLit "jedi_mind_trick".data s
  let s ← expectChar '(' (dropSpaces s)
  let (g1, s) ← takeGroupThen ',' (dropSpaces s)
  let (g2, s) ← takeGroupThen ',' (dropSpaces s)
  let (g3, s) ← takeGroupThen ')' (dropSpaces s)
  pure ("(" ++ String.mk g2 ++ " if " ++ String.mk g1 ++ " else " ++ String.mk g3 ++ ")", s)

/-- `\s*` then a fixed character. -/
def expectCharWs (c : Char) (s : List Char) : Option (List Char) :=
  expectChar c (dropSpaces s)

/-- `\s*` then a fixed literal (also used for backreferences). -/
def expectLitWs (w : List Char) (s : List Char) : Option (List Char) :=
  expectLit w (dropSpaces s)

/-- `\s*` then a nonempty run of a character class. -/
def takeClassWs (p : Char → Bool) (s : List Char) : Option (List Char × List Char) :=
  takeClass p (dropSpaces s)

/-- The `train\s*\(\s*holocron\s+(\w+)` head of the counting-loop pattern:
returns the captured loop-variable name. -/
def matchTrainHead (s : List Char) : Option (List Char × List Char) := do
  let s ← expectLit "train".data s
  let s ← expectCharWs '(' s
  let s ← expectLitWs "holocron".data s
  let s ← expectSpace1 s
  takeClass isWordChar s

/-- The `\s*=\s*(\d+)\s*;\s*\1` initialization clause: returns the captured
start value (the trailing `\1` is the backreference to the loop variable). -/
def matchTrainInitClause (name : List Char) (s : List Char) :
    Option (List Char × List Char) := do
  let s ← expectCharWs '=' s
  let (start, s) ← takeClassWs isDigitChar s
  let s ← expectCharWs ';' s
  let s ← expectLitWs name s
  pure (start, s)

/-- The `\s*<\s*(\d+)\s*;\s*\1` condition clause: returns the captured
bound. -/
def matchTrainCondClause (name : List Char) (s : List Char) :
    Option (List Char × List Char) := do
  let s ← expectCharWs '<' s
  let (bound, s) ← takeClassWs isDigitChar s
  let s ← expectCharWs ';' s
  let s ← expectLitWs name s
  pure (bound, s)

/-- The `\s*=\s*\1\s*\+\s*(\d+)\s*\)\s*\{` increment clause: returns the
captured step (`\x7b` is the left-brace character). -/
def matchTrainStepClause (name : List Char) (s : List Char) :
    Option (List Char × List Char) := do
  let s ← expectCharWs '=' s
  let s ← expectLitWs name s
  let s ← expectCharWs '+' s
  let (step, s) ← takeClassWs isDigitChar s
  let s ← expectCharWs ')' s
  let s ← expectCharWs '\x7b' s
  pure (step, s)

/-- The counting-loop pattern (lines 193-197)
`train\s*\(\s*holocron\s+(\w+)\s*=\s*(\d+)\s*;\s*\1\s*<\s*(\d+)\s*;\s*\1\s*=\s*\1\s*\+\s*(\d+)\s*\)\s*\{`
with replacement `for \1 in range(\2, \3, \4):`. -/
def matchTrainAt (s : List Char) : Option (String × List Char) := do
  let (name, s) ← matchTrainHead s
  let (start, s) ← matchTrainInitClause name s
  let (bound, s) ← matchTrainCondClause name s
  let (step, s) ← matchTrainStepClause name s
  pure ("for " ++ String.mk name ++ " in range(" ++ String.mk start ++ ", " ++
        String.mk bound ++ ", " ++ String.mk step ++ "):", s)

/-- `_handle_calculate`'s operator table (lines 161-168). -/
def opMap : List (String × String) :=
  [("add", "+"), ("subtract", "-"), ("multiply", "*"),
   ("divide", "/"), ("power", "**"), ("modulo", "%")]

/-- A double or single quote (`Char.ofNat 39` is the single quote). -/
def isQuoteChar (c : Char) : Bool :=
  c == '"' || c == Char.ofNat 39

def dropEndWhile (p : Char → Bool) (l : List Char) : List Char :=
  (l.reverse.dropWhile p).reverse

/-- Python `s.strip('"\'')`: remove quote characters from both ends. -/
def stripQuotes (s : String) : String :=
  ⟨dropEndWhile isQuoteChar (s.data.dropWhile isQuoteChar)⟩

/-- Python `s.strip()` (ASCII whitespace): remove whitespace from both
ends. -/
def pyStrip (s : String) : String :=
  ⟨dropEndWhile isPySpace (s.data.dropWhile isPySpace)⟩

/-- Python `s.split(sep)` for a one-character separator: split at every
occurrence, keeping empty pieces (`"".split(",") == [""]`). -/
def splitOnChar (c : Char) : List Char → List (List Char)
  | [] => [[]]
  | a :: t =>
      if a = c then [] :: splitOnChar c t
      else
        match splitOnChar c t with
        | [] => [[a]]
        | g :: gs => (a :: g) :: gs

/-- `ForceParser._handle_calculate` (lines 155-177): strip and unquote the
operation name, split the arguments on commas and strip them; a known
operation with exactly two arguments becomes an infix Python expression,
anything else falls back to a `force_math_<op>(args)` call. -/
def handleCalculate (rawOp rawArgs : String) : String :=
  let operation := stripQuotes (pyStrip rawOp)
  let args := pyStrip rawArgs
  let argList := (splitOnChar ',' args.data).map (fun g => pyStrip (String.mk g))
  match opMap.find? (fun p => p.1 == operation) with
  | some p =>
      if argList.length = 2 then
        "(" ++ argList.getD 0 "" ++ " " ++ p.2 ++ " " ++ argList.getD 1 "" ++ ")"
      else "force_math_" ++ operation ++ "(" ++ args ++ ")"
  | none => "force_math_" ++ operation ++ "(" ++ args ++ ")"

/-- The `force_calculate\s*\(\s*([^,]+),\s*([^)]+)\)` pattern (line 101),
whose replacement is computed by `_handle_calculate`. -/
def matchCalcAt (s : List Char) : Option (String × List Char) := do
  let s ← expectLit "force_calculate".data s
  let s ← expectChar '(' (dropSpaces s)
  let (g1, s) ← takeGroupThen ',' (dropSpaces s)
  let (g2, s) ← takeGroupThen ')' (dropSpaces s)
  pure (handleCalculate (String.mk g1) (String.mk g2), s)

/-- `re.sub` driver: at each position try the matcher; on a match emit the
replacement and continue after the matched text (never rescanning the
replacement), otherwise keep the character and move on.  Every successful
match consumes at least one character, so fuel equal to the input length
suffices. -/
def reSubScan (m : List Char → Option (String × List Char)) : Nat → List Char → List Char
  | 0, s => s
  | _ + 1, [] => []
  | fuel + 1, c :: rest =>
      match m (c :: rest) with
      | some (rep, r) => rep.data ++ reSubScan m fuel r
      | none => c :: reSubScan m fuel rest

def pySub (m : List Char → Option (String × List Char)) (s : String) : String :=
  ⟨reSubScan m s.data.length s.data⟩

def ternaryRewrite (s : String) : String := pySub matchTernaryAt s

def trainRewrite (s : String) : String := pySub matchTrainAt s

def calcRewrite (s : String) : String := pySub matchCalcAt s

/-! ### First-class ternary translation, modelled from the spec

Modelled from the spec: "A ternary-style call form ... is parsed as a
first-class `Ternary` node, not a textual rewrite, so it composes correctly
with arbitrarily nested expressions ... by bracket/paren matching, not by
comma counting".  This is the comparison point for the refinement claim
about the ternary construct; it is deliberately NOT a translation of the
repository code. -/

/-- Split a parenthesized argument list at top-level commas, tracking paren
depth, up to the matching closing paren; returns the arguments and the text
after the closing paren. -/
def splitArgsAux : List Char → Nat → List Char → List (List Char) →
    Option (List (List Char) × List Char)
  | [], _, _, _ => none
  | c :: t, depth, current, acc =>
      if c = '(' then splitArgsAux t (depth + 1) (current ++ [c]) acc
      else if c = ')' then
        if depth = 0 then some (acc ++ [current], t)
        else splitArgsAux t (depth - 1) (current ++ [c]) acc
      else if c = ',' && depth == 0 then splitArgsAux t depth [] (acc ++ [current])
      else splitArgsAux t depth (current ++ [c]) acc

def listTrim (l : List Char) : List Char :=
  dropEndWhile isPySpace (dropSpaces l)

/-- Paren-matching, recursively composing rewrite of the ternary form, as
the spec describes it. -/
def specRewriteAux : Nat → List Char → List Char
  | 0, s => s
  | fuel + 1, s =>
      match s with
      | [] => []
      | c :: rest =>
          if "jedi_mind_trick".data.isPrefixOf s then
            match expectChar '(' (dropSpaces (s.drop 15)) with
            | some afterParen =>
                match splitArgsAux (dropSpaces afterParen) 0 [] [] with
                | some ([a1, a2, a3], after) =>
                    ('(' :: specRewriteAux fuel (listTrim a2)) ++
                    " if ".data ++ specRewriteAux fuel (listTrim a1) ++
                    " else ".data ++ specRewriteAux fuel (listTrim a3) ++
                    [')'] ++ specRewriteAux fuel after
                | _ => c :: specRewriteAux fuel rest
            | none => c :: specRewriteAux fuel rest
          else c :: specRewriteAux fuel rest

def ternaryFirstClassSpec (s : String) : String :=
  ⟨specRewriteAux s.data.length s.data⟩

/-! ## Python-fragment semantics for the translated code

`ForceRuntime.run_code` executes the translated Python with
`exec(compiled_code, self.globals)`: all assignments live in one module
namespace, and a name read inside a module-level `lambda` is a *global*
lookup performed at call time.  The fragment needed by the claims is
modelled explicitly: a global namespace, integer literals and variable
reads, zero-argument lambdas, `range`, `for` loops, and `list.append`. -/

inductive PyExpr where
  | lit (n : Int)
  | var (x : String)
deriving DecidableEq

inductive PyVal where
  | int (n : Int)
  | clos (body : PyExpr)
  | list (items : List PyVal)

abbrev GEnv : Type := List (String × PyVal)

def lookupVar (env : GEnv) (x : String) : Option PyVal :=
  (env.find? (fun p => p.1 == x)).map (fun p => p.2)

/-- Assignment in the module namespace. -/
def setVar (env : GEnv) (x : String) (v : PyVal) : GEnv :=
  (x, v) :: env.filter (fun p => p.1 != x)

/-- `x.append(v)` when `x` is bound to a list (the only case the modelled
programs reach). -/
def appendVar (env : GEnv) (x : String) (v : PyVal) : GEnv :=
  match lookupVar env x with
  | some (.list l) => setVar env x (.list (l ++ [v]))
  | _ => env

def evalPyExpr (env : GEnv) : PyExpr → Option PyVal
  | .lit n => some (.int n)
  | .var x => lookupVar env x

/-- Calling a module-level zero-argument closure: its body's free names are
global lookups in the namespace as it is at call time. -/
def callClosure (env : GEnv) : PyVal → Option PyVal
  | .clos body => evalPyExpr env body
  | _ => none

/-- Python `range(a, b, step)` as a list.  Only the positive-step case is
exercised by the translated loops (the step group of the `train` regex is
`\d+`); `range` with step 0 raises `ValueError` in Python and is not
modelled. -/
def pyRange (a b step : Int) : List Int :=
  if 0 < step then
    (List.range ((b - a + step - 1) / step).toNat).map (fun k : Nat => a + step * (k : Int))
  else if step < 0 then
    (List.range ((a - b - step - 1) / (-step)).toNat).map (fun k : Nat => a + step * (k : Int))
  else []

/-- One iteration of the translated loop body
`for i in range(a, b, step): fs.append(lambda: i)` — the loop assigns the
shared module-level binding `i`, then appends a closure whose body reads
the global `i`. -/
def closureLoopBody (env : GEnv) (v : Int) : GEnv :=
  appendVar (setVar env "i" (.int v)) "fs" (.clos (.var "i"))

/-- The namespace after running `fs = []` followed by
`for i in range(a, b, step): fs.append(lambda: i)`. -/
def closureLoopRun (a b step : Int) : GEnv :=
  (pyRange a b step).foldl closureLoopBody (setVar [] "fs" (.list []))

def fsListOf (env : GEnv) : List PyVal :=
  match lookupVar env "fs" with
  | some (.list l) => l
  | _ => []

/-- Output of the translated loop `for i in range(a, b, step): print(i)`
(each iteration assigns `i` and prints it). -/
def printLoopRun (a b step : Int) : List String :=
  ((pyRange a b step).foldl
    (fun (st : GEnv × List String) v => (setVar st.1 "i" (.int v), st.2 ++ [toString v]))
    (([] : GEnv), ([] : List String))).2

/-! ## Runtime built-ins: ternary, text processing, arithmetic errors -/

/-- Python truthiness on the modelled values. -/
def pyTruthy : PyVal → Bool
  | .int n => n != 0
  | .clos _ => true
  | .list l => !l.isEmpty

/-- `ForceRuntime._force_ternary` (lines 457-459):
`return true_val if condition else false_val`. -/
def forceTernary (condition trueVal falseVal : PyVal) : PyVal :=
  if pyTruthy condition then trueVal else falseVal

/-- The Python exception classes distinguished by `run_code`'s handlers. -/
inductive PyErr where
  | syntaxErr
  | nameErr
  | typeErr
  | valueErr
  | fileNotFound
  | zeroDivision
  | indexErr
  | keyErr
  | generic
deriving DecidableEq

/-- The prefix of the message `run_code` prints for each exception class
(lines 657-684); the exception text is appended (`f"...: {e}"`). -/
def pyErrPrefix : PyErr → String
  | .syntaxErr => "The dark side clouds your syntax: "
  | .nameErr => "These aren\x27t the variables you\x27re looking for: "
  | .typeErr => "Your lack of type faith is disturbing: "
  | .valueErr => "The value you seek is not the value you need: "
  | .fileNotFound => "The archives are incomplete: "
  | .zeroDivision => "Even the Force cannot divide by zero: "
  | .indexErr => "These aren\x27t the indices you\x27re looking for: "
  | .keyErr => "The key to the Force you seek, exists it does not: "
  | .generic => "I find your lack of faith disturbing: "

/-- Outcome of `ForceRuntime.run_code`: what was printed, the returned
value, and whether an exception escaped the method. -/
structure RunOutcome (α : Type) where
  printed : Option String
  result : Option α
  crashed : Bool
deriving DecidableEq

/-- `ForceRuntime.run_code` (lines 643-684) around an executed computation
that either produces a value or raises a Python exception (carried with its
`str(e)` text).  Every exception class is caught — the chain ends in a
catch-all `except Exception` — so the method prints a themed message and
returns `None` instead of letting the exception escape (`crashed = false`
on every path). -/
def runCode {α : Type} (r : Except (PyErr × String) α) : RunOutcome α :=
  match r with
  | .ok v => ⟨none, some v, false⟩
  | .error (k, detail) => ⟨some (pyErrPrefix k ++ detail), none, false⟩

/-- Python true division on integer operands: raises `ZeroDivisionError`
(whose text is "division by zero") on a zero divisor, otherwise yields the
exact quotient (floats are modelled as rationals). -/
def pyDiv (a b : Int) : Except (PyErr × String) ℚ :=
  if b = 0 then .error (.zeroDivision, "division by zero")
  else .ok ((a : ℚ) / (b : ℚ))

/-- Values returned by `_force_text`: a string or (from `split`) a list of
strings. -/
inductive TextVal where
  | str (s : String)
  | strList (l : List String)
deriving DecidableEq

deriving instance DecidableEq for Except

def pyStrUpper (s : String) : String :=
  ⟨s.data.map Char.toUpper⟩

/-- The keys of `_force_text`'s operation table (lines 419-427). -/
def textOps : List String :=
  ["uppercase", "lowercase", "reverse", "length", "replace", "split", "strip"]

/-- A one-parameter table lambda (`lambda t: ...`), called as
`operations[operation](text, *args)`: extra positional arguments raise
`TypeError`. -/
def forceTextArity1 (f : String → TextVal) (text : String) (args : List String) :
    Except (PyErr × String) TextVal :=
  match args with
  | [] => .ok (f text)
  | _ => .error (.typeErr, "too many arguments")

/-- The `replace` lambda (`lambda t, old, new: t.replace(old, new) ...`):
exactly two extra arguments, else `TypeError`. -/
def forceTextReplace (text : String) (args : List String) :
    Except (PyErr × String) TextVal :=
  match args with
  | [old, new] => .ok (.str (text.replace old new))
  | _ => .error (.typeErr, "argument count")

/-- The `split` lambda (`lambda t, sep=' ': t.split(sep if args else ' ')`):
zero or one extra argument, else `TypeError`. -/
def forceTextSplit (text : String) (args : List String) :
    Except (PyErr × String) TextVal :=
  match args with
  | [] => .ok (.strList (text.splitOn " "))
  | [sep] => .ok (.strList (text.splitOn sep))
  | _ => .error (.typeErr, "too many arguments")

/-- `ForceRuntime._force_text` (lines 417-431): dispatch on the operation
name over the table's seven lambdas; an operation name not in the table
falls through to `return text`. -/
def forceText (operation text : String) (args : List String) : Except (PyErr × String) TextVal :=
  if operation = "uppercase" then forceTextArity1 (fun t => .str (pyStrUpper t)) text args
  else if operation = "lowercase" then forceTextArity1 (fun t => .str (strLower t)) text args
  else if operation = "reverse" then forceTextArity1 (fun t => .str ⟨t.data.reverse⟩) text args
  else if operation = "length" then forceTextArity1 (fun t => .str (toString t.length)) text args
  else if operation = "replace" then forceTextReplace text args
  else if operation = "split" then forceTextSplit text args
  else if operation = "strip" then forceTextArity1 (fun t => .str (pyStrip t)) text args
  else .ok (.str text)

/-! ## The sliding-window rate limiter

From `secure_force_demo.py`: `RateLimiter.is_allowed` (lines 68-95) and the
rate check at the top of `SecureForceWebHandler.do_POST` (lines 270-283).
`time.time()` float timestamps are modelled as rationals; the per-caller
request list `self.requests[client_ip]` is a list of timestamps in the
order they were appended. -/

def MAX_REQUESTS_PER_MINUTE : Nat := 60

def MAX_REQUESTS_PER_HOUR : Nat := 1000

/-- The pruning step: keep `req_time > current_time - 3600`. -/
def pruneState (now : ℚ) (st : List ℚ) : List ℚ :=
  st.filter (fun t => decide (now - 3600 < t))

/-- The minute window: keep `req_time > current_time - 60`. -/
def recentOf (now : ℚ) (st : List ℚ) : List ℚ :=
  st.filter (fun t => decide (now - 60 < t))

/-- `RateLimiter.is_allowed`: prune entries older than one hour, reject if
the pruned list has 60 or more entries in the last minute, reject if it has
1000 or more entries in total, otherwise record the request.  Returns the
decision and the caller's updated request list. -/
def isAllowed (now : ℚ) (st : List ℚ) : Bool × List ℚ :=
  let pruned := pruneState now st
  let recent := recentOf now pruned
  if MAX_REQUESTS_PER_MINUTE ≤ recent.length then (false, pruned)
  else if MAX_REQUESTS_PER_HOUR ≤ pruned.length then (false, pruned)
  else (true, pruned ++ [now])

/-- Process one arrival: first component is the caller's request list,
second is the log of arrival times that were granted. -/
def limStep (p : List ℚ × List ℚ) (t : ℚ) : List ℚ × List ℚ :=
  let r := isAllowed t p.1
  (r.2, if r.1 then p.2 ++ [t] else p.2)

/-- Process a sequence of arrivals from a fresh limiter. -/
def limRun (ts : List ℚ) : List ℚ × List ℚ :=
  ts.foldl limStep ([], [])

inductive PostOutcome where
  | rateLimited
  | handled (r : CompileOutcome)
deriving DecidableEq

/-- The head of `SecureForceWebHandler.do_POST`: the rate limiter runs
first, and a rejected request is answered with 429 before any validation or
compilation of the request body is reached. -/
def doPost (translate : String → String) (st : List ℚ) (now : ℚ) (code : String) :
    PostOutcome × List ℚ :=
  let r := isAllowed now st
  if r.1 then (.handled (secureCompileWith translate code), r.2)
  else (.rateLimited, r.2)

/-! ## Concrete inputs used by the theorems -/

/-- A 20,000-character source text. -/
def c2Input : String := String.mk (List.replicate 20000 'a')

/-- A ternary whose second argument is itself a ternary. -/
def c3Nested : String := "jedi_mind_trick(a, jedi_mind_trick(b, c, d), e)"

/-! # Theorems -/

/-- Claim C9: `pop` and `peek` on the empty stack created by the stack
built-in, and `dequeue` and `front` on the empty queue created by the queue
built-in, return `None` rather than raising, and leave the structure empty
with size 0. -/
theorem c9_empty_stack_queue_safe (α : Type) :
    (forceStack (α := α) none).pop = (none, forceStack none) ∧
    (forceStack (α := α) none).peek = none ∧
    ((forceStack (α := α) none).pop).2.size = 0 ∧
    (forceQueue (α := α) none).dequeue = (none, forceQueue none) ∧
    (forceQueue (α := α) none).front = none ∧
    ((forceQueue (α := α) none).dequeue).2.size = 0 :=
  ⟨rfl, rfl, rfl, rfl, rfl, rfl⟩

/-- Claim C10, counterexample: with the explicit key `""`, `len(key)` is 0,
yet the cipher shifts `"a"` by 3 (the empty string is falsy, so the
`len(key) if key else 3` shift is 3, not `len(key) = 0`); the claim's
predicted output would be `"a"` unchanged. -/
theorem c10_empty_key_counterexample :
    simpleCipher "a" (some "") = "d" ∧ simpleCipher "a" (some "") ≠ "a" := by
  decide

/-- A shifted lower-case letter is a lower-case letter. -/
theorem cipher_lower_range (r : Nat) (h : r < 26) :
    isAsciiLower (Char.ofNat (r + 97)) = true := by
  interval_cases r <;> decide

/-- A shifted upper-case letter is an upper-case letter. -/
theorem cipher_upper_range (r : Nat) (h : r < 26) :
    isAsciiUpper (Char.ofNat (r + 65)) = true := by
  interval_cases r <;> decide

/-- Claim C10, amended: the cipher output has the length of the input;
non-alphabetic characters are unchanged; alphabetic characters are replaced
by a same-case letter shifted modulo 26 by `len(key)` when the key is a
non-empty string and by 3 when the key is absent *or empty*. -/
theorem c10_cipher_shifts_preserving_case (data : String) (key : Option String) (i : Nat)
    (h : i < data.data.length) :
    (simpleCipher data key).data.length = data.data.length ∧
    (isAsciiAlpha (data.data.getD i 'a') = false →
      (simpleCipher data key).data.getD i 'a' = data.data.getD i 'a') ∧
    (isAsciiLower (data.data.getD i 'a') = true →
      (simpleCipher data key).data.getD i 'a' =
        Char.ofNat (((data.data.getD i 'a').toNat - 97 + cipherShift key) % 26 + 97) ∧
      isAsciiLower ((simpleCipher data key).data.getD i 'a') = true) ∧
    (isAsciiUpper (data.data.getD i 'a') = true →
      (simpleCipher data key).data.getD i 'a' =
        Char.ofNat (((data.data.getD i 'a').toNat - 65 + cipherShift key) % 26 + 65) ∧
      isAsciiUpper ((simpleCipher data key).data.getD i 'a') = true) := by
  have hdata : (simpleCipher data key).data = data.data.map (cipherChar (cipherShift key)) :=
    rfl
  have hget : (simpleCipher data key).data.getD i 'a' =
      cipherChar (cipherShift key) (data.data.getD i 'a') := by
    rw [hdata, List.getD_eq_getElem?_getD, List.getElem?_map,
      List.getElem?_eq_getElem h, List.getD_eq_getElem?_getD,
      List.getElem?_eq_getElem h]
    rfl
  set c := data.data.getD i 'a' with hc
  refine ⟨by rw [hdata, List.length_map], ?_, ?_, ?_⟩
  · intro hna
    rw [hget]
    simp [cipherChar, hna]
  · intro hlow
    have halpha : isAsciiAlpha c = true := by simp [isAsciiAlpha, hlow]
    have heq : cipherChar (cipherShift key) c =
        Char.ofNat ((c.toNat - 97 + cipherShift key) % 26 + 97) := by
      simp [cipherChar, halpha, hlow]
    refine ⟨by rw [hget, heq], ?_⟩
    rw [hget, heq]
    exact cipher_lower_range _ (Nat.mod_lt _ (by norm_num))
  · intro hup
    have hnl : isAsciiLower c = false := by
      simp only [isAsciiUpper, Bool.and_eq_true, decide_eq_true_eq] at hup
      simp only [isAsciiLower, Bool.and_eq_false_iff, decide_eq_false_iff_not]
      omega
    have halpha : isAsciiAlpha c = true := by simp [isAsciiAlpha, hup]
    have heq : cipherChar (cipherShift key) c =
        Char.ofNat ((c.toNat - 65 + cipherShift key) % 26 + 65) := by
      simp [cipherChar, halpha, hnl]
    refine ⟨by rw [hget, heq], ?_⟩
    rw [hget, heq]
    exact cipher_upper_range _ (Nat.mod_lt _ (by norm_num))

/-- Witness for C10 at a concrete input: `"Az9!"` with no key (shift 3). -/
theorem c10_cipher_shifts_witness :
    (simpleCipher "Az9!" none).data.length = "Az9!".data.length ∧
    (simpleCipher "Az9!" none).data.getD 0 'a' = 'D' := by
  have h := c10_cipher_shifts_preserving_case "Az9!" none 0 (by decide)
  refine ⟨h.1, ?_⟩
  have h2 := (h.2.2.2 (by decide)).1
  rw [h2]
  decide

/-- Claim C1: the restricted environment built by `create_safe_environment`
is NOT free of file capabilities — the name-substring deny filter passes
`force_json`, whose `load`/`save` operations call `open` on host files.
This theorem evaluates the code at the failing input. -/
theorem c1_sandbox_binds_file_capability :
    ("force_json", (⟨true, false⟩ : Capability)) ∈ createSafeEnvironment.toplevel ∧
    jsonOpOpensFile "load" = true ∧
    jsonOpOpensFile "save" = true ∧
    ¬(∀ p ∈ createSafeEnvironment.toplevel,
        p.2.opensHostFile = false ∧ p.2.opensNetwork = false) ∧
    (∀ p ∈ createSafeEnvironment.builtins,
        p.2.opensHostFile = false ∧ p.2.opensNetwork = false) := by
  decide

/-- Claim C2: a source text longer than the configured maximum (10000
characters) is rejected during validation with a size error, for every
possible translation function — so `translate_to_python` is never applied
to it. -/
theorem c2_oversize_rejected_before_translation (translate : String → String)
    (code : String) (h : code.length > MAX_CODE_SIZE) :
    secureCompileWith translate code =
      .rejected "security" (.tooLarge code.length) := by
  simp only [secureCompileWith, validateForceCode, if_pos h]

/-- Witness for C2: a 20,000-character source against the 10,000-character
limit. -/
theorem c2_oversize_witness :
    c2Input.length > MAX_CODE_SIZE ∧
    secureCompileWith id c2Input = .rejected "security" (.tooLarge c2Input.length) := by
  have h : c2Input.length > MAX_CODE_SIZE := by
    show (List.replicate 20000 'a').length > MAX_CODE_SIZE
    rw [List.length_replicate]
    decide
  exact ⟨h, c2_oversize_rejected_before_translation id c2Input h⟩

/-- Claim C5, counterexample: an unknown-operation invocation of the text
built-in is not reported — `_force_text` returns the input text unchanged
as an ordinary successful result, with no error channel used. -/
theorem c5_unknown_op_swallowed :
    "frobnicate" ∉ textOps ∧
    forceText "frobnicate" "abc" [] = Except.ok (TextVal.str "abc") := by
  decide

/-- Claim C5, amended: for every operation name outside `_force_text`'s
table, the call falls through to `return text` — the failure is silently
swallowed by returning the input unchanged, with no report. -/
theorem c5_unknown_op_returns_input (operation text : String) (args : List String)
    (h : operation ∉ textOps) :
    forceText operation text args = Except.ok (TextVal.str text) := by
  have hs : ∀ x ∈ textOps, operation ≠ x := fun x hx he => h (he ▸ hx)
  simp only [forceText, if_neg (hs "uppercase" (by decide)),
    if_neg (hs "lowercase" (by decide)), if_neg (hs "reverse" (by decide)),
    if_neg (hs "length" (by decide)), if_neg (hs "replace" (by decide)),
    if_neg (hs "split" (by decide)), if_neg (hs "strip" (by decide))]

/-- Witness for C5 at a concrete unknown operation. -/
theorem c5_unknown_op_witness :
    "encrypt" ∉ textOps ∧
    forceText "encrypt" "xy" ["z"] = Except.ok (TextVal.str "xy") :=
  ⟨by decide, c5_unknown_op_returns_input "encrypt" "xy" ["z"] (by decide)⟩

/-- Claim C6: `force_calculate("divide", 10, 0)` is translated to the
Python expression `(10 / 0)`; executing a zero-divisor division raises
`ZeroDivisionError`, which `run_code` catches and reports (themed message,
`None` result) instead of crashing — the run completes. -/
theorem c6_divide_by_zero_reported :
    calcRewrite "force_calculate(\"divide\", 10, 0)" = "(10 / 0)" ∧
    runCode (pyDiv 10 0) =
      ⟨some "Even the Force cannot divide by zero: division by zero", none, false⟩ := by
  constructor
  · decide
  · decide

/-- Claim C7: the counting-loop head is desugared at translation time into
`for i in range(0, 3, 1):`, and executing that loop printing the loop
variable outputs `"0"`, `"1"`, `"2"` in order. -/
theorem c7_counting_loop_outputs :
    trainRewrite "train (holocron i = 0; i < 3; i = i + 1) \x7b" =
      "for i in range(0, 3, 1):" ∧
    printLoopRun 0 3 1 = ["0", "1", "2"] := by
  constructor
  · decide
  · decide

/-! ### Scanner lemmas for the ternary rewrite -/

theorem takeWhile_append_all {p : Char → Bool} (l r : List Char)
    (h : ∀ c ∈ l, p c = true) : (l ++ r).takeWhile p = l ++ r.takeWhile p := by
  induction l with
  | nil => simp
  | cons a t ih =>
      simp [List.takeWhile_cons, h a (List.mem_cons_self a t),
        ih (fun c hc => h c (List.mem_cons_of_mem a hc))]

theorem dropWhile_append_all {p : Char → Bool} (l r : List Char)
    (h : ∀ c ∈ l, p c = true) : (l ++ r).dropWhile p = r.dropWhile p := by
  induction l with
  | nil => simp
  | cons a t ih =>
      simp [List.dropWhile_cons, h a (List.mem_cons_self a t),
        ih (fun c hc => h c (List.mem_cons_of_mem a hc))]

theorem expectLit_append (w r : List Char) : expectLit w (w ++ r) = some r := by
  have hp : w.isPrefixOf (w ++ r) = true := by
    induction w with
    | nil => simp [List.isPrefixOf]
    | cons a t ih => simp [List.isPrefixOf, ih]
  unfold expectLit
  rw [if_pos hp, List.drop_left]

theorem takeGroupThen_append (stop : Char) (g r : List Char)
    (hne : g ≠ []) (hg : ∀ c ∈ g, (c != stop) = true) :
    takeGroupThen stop (g ++ stop :: r) = some (g, r) := by
  have h1 : (stop :: r).takeWhile (fun c => c != stop) = [] := by
    simp [List.takeWhile_cons]
  have h2 : (stop :: r).dropWhile (fun c => c != stop) = stop :: r := by
    simp [List.dropWhile_cons]
  have hgE : (g ++ []).isEmpty = false := by
    cases g with
    | nil => exact absurd rfl hne
    | cons a t => rfl
  unfold takeGroupThen
  rw [takeWhile_append_all _ _ hg, dropWhile_append_all _ _ hg, h1, h2]
  simp [hgE, hne]

theorem dropSpaces_append_nonspace (g r : List Char) (hne : g ≠ [])
    (h : ∀ c ∈ g, isPySpace c = false) : dropSpaces (g ++ r) = g ++ r := by
  cases g with
  | nil => exact absurd rfl hne
  | cons a t =>
      simp [dropSpaces, List.cons_append, List.dropWhile_cons,
        h a (List.mem_cons_self a t)]

theorem dropSpaces_space_cons (x : List Char) :
    dropSpaces (' ' :: x) = dropSpaces x := by
  have h : isPySpace ' ' = true := rfl
  simp [dropSpaces, List.dropWhile_cons, h]

theorem reSubScan_nil (m : List Char → Option (String × List Char)) (fuel : Nat) :
    reSubScan m fuel [] = [] := by
  cases fuel <;> rfl

/-- Evaluation of the ternary matcher on the exact argument shape used by
the amended C3 claim: `jedi_mind_trick(` then a comma-free, space-free
group, `, `, a second such group, `, `, a close-paren-free, space-free
group, then `)`. -/
theorem matchTernaryAt_shape (g1 g2 g3 : List Char)
    (h1e : g1 ≠ []) (h1 : ∀ c ∈ g1, (c != ',') = true ∧ isPySpace c = false)
    (h2e : g2 ≠ []) (h2 : ∀ c ∈ g2, (c != ',') = true ∧ isPySpace c = false)
    (h3e : g3 ≠ []) (h3 : ∀ c ∈ g3, (c != ')') = true ∧ isPySpace c = false) :
    matchTernaryAt ("jedi_mind_trick".data ++
        ('(' :: (g1 ++ (',' :: ' ' :: (g2 ++ (',' :: ' ' :: (g3 ++ [')'])))))))
      = some ("(" ++ String.mk g2 ++ " if " ++ String.mk g1 ++ " else " ++
              String.mk g3 ++ ")", []) := by
  have e1 := expectLit_append "jedi_mind_trick".data
    ('(' :: (g1 ++ (',' :: ' ' :: (g2 ++ (',' :: ' ' :: (g3 ++ [')']))))))
  have e2 : expectChar '('
        (dropSpaces ('(' :: (g1 ++ (',' :: ' ' :: (g2 ++ (',' :: ' ' :: (g3 ++ [')'])))))))
      = some (g1 ++ (',' :: ' ' :: (g2 ++ (',' :: ' ' :: (g3 ++ [')']))))) := rfl
  have e4 : dropSpaces (g1 ++ (',' :: ' ' :: (g2 ++ (',' :: ' ' :: (g3 ++ [')'])))))
      = g1 ++ (',' :: ' ' :: (g2 ++ (',' :: ' ' :: (g3 ++ [')'])))) :=
    dropSpaces_append_nonspace _ _ h1e (fun c hc => (h1 c hc).2)
  have e5 : takeGroupThen ',' (g1 ++ (',' :: (' ' :: (g2 ++ (',' :: ' ' :: (g3 ++ [')']))))))
      = some (g1, ' ' :: (g2 ++ (',' :: ' ' :: (g3 ++ [')'])))) :=
    takeGroupThen_append ',' g1 _ h1e (fun c hc => (h1 c hc).1)
  have e6 : dropSpaces (' ' :: (g2 ++ (',' :: ' ' :: (g3 ++ [')']))))
      = g2 ++ (',' :: ' ' :: (g3 ++ [')'])) := by
    rw [dropSpaces_space_cons]
    exact dropSpaces_append_nonspace _ _ h2e (fun c hc => (h2 c hc).2)
  have e7 : takeGroupThen ',' (g2 ++ (',' :: (' ' :: (g3 ++ [')']))))
      = some (g2, ' ' :: (g3 ++ [')'])) :=
    takeGroupThen_append ',' g2 _ h2e (fun c hc => (h2 c hc).1)
  have e8 : dropSpaces (' ' :: (g3 ++ [')'])) = g3 ++ [')'] := by
    rw [dropSpaces_space_cons]
    exact dropSpaces_append_nonspace _ _ h3e (fun c hc => (h3 c hc).2)
  have e9 : takeGroupThen ')' (g3 ++ (')' :: [])) = some (g3, []) :=
    takeGroupThen_append ')' g3 [] h3e (fun c hc => (h3 c hc).1)
  simp only [matchTernaryAt, Option.bind_eq_bind', e1, Option.some_bind, e2, e4,
    e5, e6, e7, e8, e9]
  rfl

theorem strMkAppend (a b : List Char) :
    String.mk a ++ String.mk b = String.mk (a ++ b) := rfl

theorem reSubScan_match (m : List Char → Option (String × List Char)) (fuel : Nat)
    (s : List Char) (rep : String) (hne : s ≠ []) (h : m s = some (rep, [])) :
    reSubScan m (fuel + 1) s = rep.data := by
  cases s with
  | nil => exact absurd rfl hne
  | cons c t => simp [reSubScan, h, reSubScan_nil]

/-- Claim C3, counterexample: on a ternary whose true-branch argument is
itself a ternary, the comma-splitting textual rewrite of line 95 captures
`jedi_mind_trick(b` as the second group and `c, d` as the third, producing
a mangled expression — not the composition a first-class paren-matching
parse (the spec-modelled `ternaryFirstClassSpec`) produces. -/
theorem c3_nested_ternary_counterexample :
    ternaryRewrite c3Nested = "(jedi_mind_trick(b if a else c, d), e)" ∧
    ternaryFirstClassSpec c3Nested = "((c if b else d) if a else e)" ∧
    ternaryRewrite c3Nested ≠ ternaryFirstClassSpec c3Nested := by
  refine ⟨by decide, by decide, by decide⟩

/-- Claim C3, amended: the ternary form is handled by a textual regex
rewrite that splits on commas, not by a first-class node.  For a ternary
whose three arguments are nonempty and contain no commas, spaces, or (for
the third) closing parens, the rewrite produces the Python conditional
expression selecting the second argument under the first; and the runtime
helper `force_ternary` returns the selected branch.  (Nested ternary
arguments are mangled — see the counterexample.) -/
theorem c3_ternary_rewrite_amended (g1 g2 g3 : String)
    (h1e : g1.data ≠ []) (h1 : ∀ c ∈ g1.data, (c != ',') = true ∧ isPySpace c = false)
    (h2e : g2.data ≠ []) (h2 : ∀ c ∈ g2.data, (c != ',') = true ∧ isPySpace c = false)
    (h3e : g3.data ≠ []) (h3 : ∀ c ∈ g3.data, (c != ')') = true ∧ isPySpace c = false) :
    ternaryRewrite ("jedi_mind_trick(" ++ g1 ++ ", " ++ g2 ++ ", " ++ g3 ++ ")") =
      "(" ++ g2 ++ " if " ++ g1 ++ " else " ++ g3 ++ ")" ∧
    forceTernary (.int 1) (.int 5) (.int 7) = PyVal.int 5 ∧
    forceTernary (.int 0) (.int 5) (.int 7) = PyVal.int 7 := by
  refine ⟨?_, rfl, rfl⟩
  obtain ⟨l1⟩ := g1
  obtain ⟨l2⟩ := g2
  obtain ⟨l3⟩ := g3
  have hS : ("jedi_mind_trick(" ++ String.mk l1 ++ ", " ++ String.mk l2 ++ ", " ++
        String.mk l3 ++ ")").data
      = "jedi_mind_trick".data ++
        ('(' :: (l1 ++ (',' :: ' ' :: (l2 ++ (',' :: ' ' :: (l3 ++ [')'])))))) := by
    show ("jedi_mind_trick(".data ++ l1 ++ ", ".data ++ l2 ++ ", ".data ++ l3 ++
        ")".data : List Char) = _
    simp [List.append_assoc]
  have hmatch := matchTernaryAt_shape l1 l2 l3 h1e h1 h2e h2 h3e h3
  have hne : ("jedi_mind_trick".data ++
      ('(' :: (l1 ++ (',' :: ' ' :: (l2 ++ (',' :: ' ' :: (l3 ++ [')'])))))) : List Char)
      ≠ [] := by simp
  have hlen : ("jedi_mind_trick(" ++ String.mk l1 ++ ", " ++ String.mk l2 ++ ", " ++
        String.mk l3 ++ ")").data.length
      = ("edi_mind_trick".data ++
        ('(' :: (l1 ++ (',' :: ' ' :: (l2 ++ (',' :: ' ' :: (l3 ++ [')']))))))).length + 1 := by
    rw [hS]
    rfl
  show String.mk (reSubScan matchTernaryAt _ _) = _
  rw [hlen, hS, reSubScan_match matchTernaryAt _ _ _ hne hmatch]

/-- Witness for C3 at a concrete simple ternary. -/
theorem c3_ternary_rewrite_witness :
    ternaryRewrite ("jedi_mind_trick(" ++ "x" ++ ", " ++ "y" ++ ", " ++ "z" ++ ")") =
      "(" ++ "y" ++ " if " ++ "x" ++ " else " ++ "z" ++ ")" :=
  (c3_ternary_rewrite_amended "x" "y" "z" (by decide) (by decide) (by decide)
    (by decide) (by decide) (by decide)).1

/-! ### Environment lemmas for the translated-loop semantics -/

theorem lookupVar_setVar_same (env : GEnv) (x : String) (v : PyVal) :
    lookupVar (setVar env x v) x = some v := by
  simp [lookupVar, setVar, List.find?]

theorem find?_filter_ne (env : GEnv) (x y : String) (h : y ≠ x) :
    List.find? (fun p => p.1 == y) (env.filter (fun p => p.1 != x)) =
    List.find? (fun p => p.1 == y) env := by
  induction env with
  | nil => rfl
  | cons a t ih =>
      by_cases hax : a.1 = x
      · have hfilter : (a.1 != x) = false := by simp [hax]
        have hfind : (a.1 == y) = false := by
          rw [hax]
          exact beq_eq_false_iff_ne.mpr (fun he => h he.symm)
        simp [List.filter_cons, hfilter, List.find?_cons, hfind, ih]
      · have hfilter : (a.1 != x) = true := by simp [hax]
        by_cases hay : a.1 = y
        · have hf : (a.1 == y) = true := by simp [hay]
          simp [List.filter_cons, hfilter, List.find?_cons, hf]
        · have hf : (a.1 == y) = false := by simp [hay]
          simp [List.filter_cons, hfilter, List.find?_cons, hf, ih]

theorem lookupVar_setVar_ne (env : GEnv) (x y : String) (v : PyVal) (h : y ≠ x) :
    lookupVar (setVar env x v) y = lookupVar env y := by
  have hxy : (x == y) = false := beq_eq_false_iff_ne.mpr (fun he => h he.symm)
  simp [lookupVar, setVar, List.find?_cons, hxy, find?_filter_ne env x y h]

theorem lookupVar_appendVar_same (env : GEnv) (x : String) (v : PyVal) (l : List PyVal)
    (hl : lookupVar env x = some (.list l)) :
    lookupVar (appendVar env x v) x = some (.list (l ++ [v])) := by
  simp [appendVar, hl, lookupVar_setVar_same]

theorem lookupVar_appendVar_ne (env : GEnv) (x y : String) (v : PyVal) (h : y ≠ x) :
    lookupVar (appendVar env x v) y = lookupVar env y := by
  unfold appendVar
  cases hx : lookupVar env x with
  | none => rfl
  | some w =>
      cases w with
      | int n => rfl
      | clos b => rfl
      | list l => exact lookupVar_setVar_ne env x y _ h

/-- State of the namespace after the closure-creating loop body has run over
a list of loop-variable values: `fs` has gained one closure per iteration,
and `i` holds the last value iterated. -/
theorem closureLoop_invariant (vs : List Int) (env : GEnv) (l : List PyVal)
    (hfs : lookupVar env "fs" = some (.list l)) :
    lookupVar (vs.foldl closureLoopBody env) "fs"
      = some (.list (l ++ vs.map (fun _ => PyVal.clos (.var "i")))) ∧
    ∀ last, vs.getLast? = some last →
      lookupVar (vs.foldl closureLoopBody env) "i" = some (.int last) := by
  induction vs generalizing env l with
  | nil =>
      refine ⟨by simpa using hfs, ?_⟩
      intro last hlast
      simp at hlast
  | cons v vs ih =>
      have hfs1 : lookupVar (setVar env "i" (.int v)) "fs" = some (.list l) := by
        rw [lookupVar_setVar_ne env "i" "fs" _ (by decide)]
        exact hfs
      have hfs2 : lookupVar (closureLoopBody env v) "fs"
          = some (.list (l ++ [PyVal.clos (.var "i")])) :=
        lookupVar_appendVar_same _ _ _ _ hfs1
      have hi : lookupVar (closureLoopBody env v) "i" = some (.int v) := by
        unfold closureLoopBody
        rw [lookupVar_appendVar_ne _ "fs" "i" _ (by decide)]
        exact lookupVar_setVar_same env "i" (.int v)
      obtain ⟨ihfs, ihi⟩ := ih (closureLoopBody env v) _ hfs2
      constructor
      · rw [List.foldl_cons]
        simpa [List.append_assoc] using ihfs
      · intro last hlast
        rw [List.foldl_cons]
        cases vs with
        | nil =>
            simp at hlast
            subst hlast
            simpa using hi
        | cons w ws =>
            exact ihi last (by rwa [List.getLast?_cons_cons] at hlast)

theorem pyRange_zero (n : Nat) :
    pyRange 0 n 1 = (List.range n).map (fun k : Nat => (k : Int)) := by
  unfold pyRange
  rw [if_pos (by norm_num : (0:Int) < 1)]
  have h1 : (((n : Int) - 0 + 1 - 1) / 1).toNat = n := by
    norm_num
  rw [h1]
  exact List.map_congr_left (fun a _ => by ring)

/-- Claim C4, amended: every closure created inside the translated counting
loop reads the shared module-level binding of the loop variable, so invoked
after the loop each one observes the final value `n - 1`, not the value of
its own iteration. -/
theorem c4_loop_closures_share_binding (n : Nat) (hn : 0 < n) :
    ∀ c ∈ fsListOf (closureLoopRun 0 n 1),
      callClosure (closureLoopRun 0 n 1) c = some (.int ((n : Int) - 1)) := by
  intro c hc
  have hinit : lookupVar (setVar [] "fs" (PyVal.list [])) "fs"
      = some (.list []) := lookupVar_setVar_same [] "fs" (PyVal.list [])
  obtain ⟨hfs, hi⟩ := closureLoop_invariant (pyRange 0 n 1) _ [] hinit
  have hfseq : fsListOf (closureLoopRun 0 n 1)
      = (pyRange 0 n 1).map (fun _ => PyVal.clos (.var "i")) := by
    unfold fsListOf closureLoopRun
    rw [hfs]
    simp
  rw [hfseq] at hc
  obtain ⟨a, _, hac⟩ := List.mem_map.mp hc
  have hlast : (pyRange 0 n 1).getLast? = some ((n : Int) - 1) := by
    rw [pyRange_zero]
    obtain ⟨m, rfl⟩ := Nat.exists_eq_succ_of_ne_zero hn.ne'
    rw [List.range_succ, List.map_append, List.map_singleton, List.getLast?_concat]
    simp only [Option.some.injEq]
    push_cast
    ring
  have hival := hi _ hlast
  rw [← hac]
  show evalPyExpr (closureLoopRun 0 n 1) (.var "i") = _
  exact hival

/-- Claim C4, counterexample: in the loop `for i in range(0, 3, 1):
fs.append(lambda: i)`, the closure created in iteration 0 yields 2 — the
loop's final value — when invoked after the loop, not the value 0 of the
iteration in which it was created. -/
theorem c4_first_closure_sees_final_value :
    (fsListOf (closureLoopRun 0 3 1)).getD 0 (PyVal.int 99) = PyVal.clos (.var "i") ∧
    callClosure (closureLoopRun 0 3 1)
      ((fsListOf (closureLoopRun 0 3 1)).getD 0 (PyVal.int 99)) = some (PyVal.int 2) ∧
    some (PyVal.int 2) ≠ some (PyVal.int 0) := by
  refine ⟨rfl, rfl, by simp⟩

/-- Witness for C4 at the concrete loop bound 3. -/
theorem c4_loop_closures_witness :
    callClosure (closureLoopRun 0 3 1) (PyVal.clos (.var "i")) = some (PyVal.int 2) := by
  have hmem : PyVal.clos (.var "i") ∈ fsListOf (closureLoopRun 0 3 1) := by
    show PyVal.clos (.var "i") ∈
      [PyVal.clos (.var "i"), PyVal.clos (.var "i"), PyVal.clos (.var "i")]
    exact List.mem_cons_self _ _
  have h := c4_loop_closures_share_binding 3 (by decide) _ hmem
  have h2 : ((3 : Nat) : Int) - 1 = 2 := by norm_num
  rw [h2] at h
  exact h

/-! ### Rate-limiter lemmas -/

theorem limRun_append (ts : List ℚ) (u : ℚ) :
    limRun (ts ++ [u]) = limStep (limRun ts) u := by
  unfold limRun
  rw [List.foldl_append]
  rfl

theorem limRun_snoc_allowed (ts : List ℚ) (u : ℚ) :
    (limRun (ts ++ [u])).2 =
      if (isAllowed u (limRun ts).1).1 then (limRun ts).2 ++ [u] else (limRun ts).2 := by
  rw [limRun_append]
  rfl

theorem limRun_snoc_state (ts : List ℚ) (u : ℚ) :
    (limRun (ts ++ [u])).1 = (isAllowed u (limRun ts).1).2 := by
  rw [limRun_append]
  rfl

theorem isAllowed_snd (now : ℚ) (st : List ℚ) :
    (isAllowed now st).2 =
      if (isAllowed now st).1 then pruneState now st ++ [now] else pruneState now st := by
  unfold isAllowed
  by_cases h1 : MAX_REQUESTS_PER_MINUTE ≤ (recentOf now (pruneState now st)).length
  · simp [h1]
  · by_cases h2 : MAX_REQUESTS_PER_HOUR ≤ (pruneState now st).length
    · simp [h1, h2]
    · simp [h1, h2]

theorem isAllowed_true_iff (now : ℚ) (st : List ℚ) :
    (isAllowed now st).1 = true ↔
      (recentOf now (pruneState now st)).length < MAX_REQUESTS_PER_MINUTE ∧
      (pruneState now st).length < MAX_REQUESTS_PER_HOUR := by
  unfold isAllowed
  by_cases h1 : MAX_REQUESTS_PER_MINUTE ≤ (recentOf now (pruneState now st)).length
  · simp [h1, Nat.not_lt.mpr h1]
  · by_cases h2 : MAX_REQUESTS_PER_HOUR ≤ (pruneState now st).length
    · simp [h1, h2, Nat.not_lt.mpr h2]
    · simp [h1, h2, Nat.lt_of_not_le h1, Nat.lt_of_not_le h2]

theorem filter_window_comp (l : List ℚ) (a b : ℚ) (hab : a ≤ b) :
    (l.filter (fun x => decide (a < x))).filter (fun x => decide (b < x))
      = l.filter (fun x => decide (b < x)) := by
  induction l with
  | nil => rfl
  | cons c t ih =>
      by_cases hb : b < c
      · have ha : a < c := lt_of_le_of_lt hab hb
        simp [List.filter_cons, ha, hb, ih]
      · by_cases ha : a < c
        · simp [List.filter_cons, ha, hb, ih]
        · simp [List.filter_cons, ha, hb, ih]

theorem limRun_allowed_mem (ts : List ℚ) : ∀ x ∈ (limRun ts).2, x ∈ ts := by
  induction ts using List.reverseRecOn with
  | nil => simp [limRun]
  | append_singleton ts u ih =>
      intro x hx
      rw [limRun_snoc_allowed] at hx
      by_cases hg : (isAllowed u (limRun ts).1).1
      · rw [if_pos hg] at hx
        rcases List.mem_append.mp hx with h | h
        · exact List.mem_append.mpr (Or.inl (ih x h))
        · exact List.mem_append.mpr (Or.inr h)
      · rw [if_neg hg] at hx
        exact List.mem_append.mpr (Or.inl (ih x hx))

/-- State invariant: for sorted arrivals, the stored request list and the
log of granted arrivals agree once both are restricted to any window that
reaches back no further than the pruning cutoff of the latest arrival. -/
theorem limRun_state_eq (ts : List ℚ) (hs : List.Pairwise (· ≤ ·) ts) (u : ℚ)
    (hu : ∀ x ∈ ts, x ≤ u) :
    (limRun ts).1.filter (fun x => decide (u - 3600 < x))
      = (limRun ts).2.filter (fun x => decide (u - 3600 < x)) := by
  induction ts using List.reverseRecOn generalizing u with
  | nil => simp [limRun]
  | append_singleton ts t ih =>
      rw [List.pairwise_append] at hs
      obtain ⟨hsts, -, hts_t⟩ := hs
      have htle : ∀ x ∈ ts, x ≤ t := fun x hx =>
        hts_t x hx t (List.mem_singleton.mpr rfl)
      have htu : t ≤ u := hu t (List.mem_append.mpr (Or.inr (List.mem_singleton.mpr rfl)))
      have hu' : ∀ x ∈ ts, x ≤ u := fun x hx =>
        hu x (List.mem_append.mpr (Or.inl hx))
      have hcut : t - 3600 ≤ u - 3600 := by linarith
      have hstate : (limRun ts).1.filter (fun x => decide (u - 3600 < x))
          = (limRun ts).2.filter (fun x => decide (u - 3600 < x)) := ih hsts u hu'
      have hpruned : (pruneState t (limRun ts).1).filter (fun x => decide (u - 3600 < x))
          = (limRun ts).2.filter (fun x => decide (u - 3600 < x)) := by
        unfold pruneState
        rw [filter_window_comp _ _ _ hcut]
        exact hstate
      rw [limRun_snoc_state, limRun_snoc_allowed, isAllowed_snd]
      by_cases hg : (isAllowed t (limRun ts).1).1
      · rw [if_pos hg, if_pos hg, List.filter_append, List.filter_append, hpruned]
      · rw [if_neg hg, if_neg hg, hpruned]

/-- On a list whose members are all at most `u`, the upper half of the
window predicate is vacuous. -/
theorem countP_and_le (al : List ℚ) (u cutoff : ℚ) (hle : ∀ x ∈ al, x ≤ u) :
    al.countP (fun x => decide (cutoff < x) && decide (x ≤ u))
      = al.countP (fun x => decide (cutoff < x)) := by
  induction al with
  | nil => rfl
  | cons a t ih =>
      have ha : a ≤ u := hle a (List.mem_cons_self a t)
      have iht := ih (fun x hx => hle x (List.mem_cons_of_mem a hx))
      by_cases hc : cutoff < a
      · simp [List.countP_cons, hc, ha, iht]
      · simp [List.countP_cons, hc, iht]

/-- Quota invariant: processing any non-decreasing arrival sequence from a
fresh limiter, every granted arrival time `t` sees at most 60 grants inside
the minute window `(t - 60, t]` and at most 1000 inside the hour window
`(t - 3600, t]`. -/
theorem limRun_quota_aux (ts : List ℚ) : List.Pairwise (· ≤ ·) ts →
    ∀ t ∈ (limRun ts).2,
      (limRun ts).2.countP (fun x => decide (t - 60 < x) && decide (x ≤ t))
          ≤ MAX_REQUESTS_PER_MINUTE ∧
      (limRun ts).2.countP (fun x => decide (t - 3600 < x) && decide (x ≤ t))
          ≤ MAX_REQUESTS_PER_HOUR := by
  induction ts using List.reverseRecOn with
  | nil =>
      intro _ t ht
      simp [limRun] at ht
  | append_singleton ts u ih =>
      intro hs t ht
      rw [List.pairwise_append] at hs
      obtain ⟨hsts, -, hts_u⟩ := hs
      have hule : ∀ x ∈ ts, x ≤ u := fun x hx =>
        hts_u x hx u (List.mem_singleton.mpr rfl)
      by_cases hg : (isAllowed u (limRun ts).1).1
      · rw [limRun_snoc_allowed, if_pos hg] at ht ⊢
        have hmemal : ∀ x ∈ (limRun ts).2, x ≤ u := fun x hx =>
          hule x (limRun_allowed_mem ts x hx)
        have grant_bound :
            ((limRun ts).2 ++ [u]).countP
                (fun x => decide (u - 60 < x) && decide (x ≤ u))
              ≤ MAX_REQUESTS_PER_MINUTE ∧
            ((limRun ts).2 ++ [u]).countP
                (fun x => decide (u - 3600 < x) && decide (x ≤ u))
              ≤ MAX_REQUESTS_PER_HOUR := by
          have hst := limRun_state_eq ts hsts u hule
          have hgrant := (isAllowed_true_iff u (limRun ts).1).mp hg
          have hrec : recentOf u (pruneState u (limRun ts).1)
              = (limRun ts).2.filter (fun x => decide (u - 60 < x)) := by
            unfold recentOf pruneState
            rw [hst, filter_window_comp _ _ _ (by linarith)]
          have hpru : pruneState u (limRun ts).1
              = (limRun ts).2.filter (fun x => decide (u - 3600 < x)) := by
            unfold pruneState
            exact hst
          rw [hrec] at hgrant
          rw [hpru] at hgrant
          have hu60 : u - 60 < u := by linarith
          have hu3600 : u - 3600 < u := by linarith
          constructor
          · rw [List.countP_append, countP_and_le _ _ _ hmemal,
              List.countP_eq_length_filter]
            have h1 : List.countP
                (fun x => decide (u - 60 < x) && decide (x ≤ u)) [u] = 1 := by
              simp [List.countP_cons, hu60]
            rw [h1]
            unfold MAX_REQUESTS_PER_MINUTE at hgrant ⊢
            omega
          · rw [List.countP_append, countP_and_le _ _ _ hmemal,
              List.countP_eq_length_filter]
            have h1 : List.countP
                (fun x => decide (u - 3600 < x) && decide (x ≤ u)) [u] = 1 := by
              simp [List.countP_cons, hu3600]
            rw [h1]
            unfold MAX_REQUESTS_PER_HOUR at hgrant ⊢
            omega
        rcases List.mem_append.mp ht with htin | htu
        · by_cases htu2 : u ≤ t
          · have htequ : t = u := le_antisymm (hmemal t htin) htu2
            rw [htequ]
            exact grant_bound
          · have h60 : List.countP
                (fun x => decide (t - 60 < x) && decide (x ≤ t)) [u] = 0 := by
              simp [List.countP_cons, htu2]
            have h3600 : List.countP
                (fun x => decide (t - 3600 < x) && decide (x ≤ t)) [u] = 0 := by
              simp [List.countP_cons, htu2]
            rw [List.countP_append, h60, List.countP_append, h3600]
            have := ih hsts t htin
            omega
        · have htequ : t = u := List.mem_singleton.mp htu
          rw [htequ]
          exact grant_bound
      · rw [limRun_snoc_allowed, if_neg hg] at ht ⊢
        exact ih hsts t ht

/-- Claim C8: (1) over any non-decreasing arrival sequence, a granted
arrival never sees more than the per-minute quota (60) of grants in its
sliding minute window nor more than the per-hour quota (1000) in its hour
window; (2) a request arriving when the caller's pruned request list
already holds a full minute window or a full hour of requests is answered
with the rate-limit rejection by `do_POST` before any validation or
compilation of its source text (the outcome is `rateLimited` for every
possible source text and translation function). -/
theorem c8_rate_limiter_quota (ts : List ℚ) (hs : List.Pairwise (· ≤ ·) ts) :
    (∀ t ∈ (limRun ts).2,
      (limRun ts).2.countP (fun x => decide (t - 60 < x) && decide (x ≤ t))
          ≤ MAX_REQUESTS_PER_MINUTE ∧
      (limRun ts).2.countP (fun x => decide (t - 3600 < x) && decide (x ≤ t))
          ≤ MAX_REQUESTS_PER_HOUR) ∧
    (∀ (st : List ℚ) (now : ℚ) (code : String) (translate : String → String),
      (MAX_REQUESTS_PER_MINUTE ≤ (recentOf now (pruneState now st)).length ∨
       MAX_REQUESTS_PER_HOUR ≤ (pruneState now st).length) →
      (doPost translate st now code).1 = PostOutcome.rateLimited) := by
  constructor
  · exact limRun_quota_aux ts hs
  · intro st now code translate hq
    have hfalse : (isAllowed now st).1 = false := by
      rw [Bool.eq_false_iff]
      intro htrue
      rw [isAllowed_true_iff] at htrue
      rcases hq with h | h
      · exact absurd htrue.1 (Nat.not_lt.mpr h)
      · exact absurd htrue.2 (Nat.not_lt.mpr h)
    simp [doPost, hfalse]

/-- Witness for C8: the concrete arrival sequence `[0]` (granted), and a
request list already holding 60 requests in the minute window. -/
theorem c8_rate_limiter_witness :
    (limRun [(0 : ℚ)]).2.countP
        (fun x => decide ((0 : ℚ) - 60 < x) && decide (x ≤ (0 : ℚ)))
      ≤ MAX_REQUESTS_PER_MINUTE ∧
    (doPost id (List.replicate 60 (0 : ℚ)) 0 "x").1 = PostOutcome.rateLimited := by
  have h := c8_rate_limiter_quota [(0 : ℚ)] (by simp)
  have hmem : (0 : ℚ) ∈ (limRun [(0 : ℚ)]).2 := by
    show (0 : ℚ) ∈ [(0 : ℚ)]
    exact List.mem_singleton.mpr rfl
  have hpr : pruneState 0 (List.replicate 60 (0 : ℚ)) = List.replicate 60 (0 : ℚ) := by
    unfold pruneState
    rw [List.filter_eq_self]
    intro a ha
    have ha0 : a = 0 := List.eq_of_mem_replicate ha
    subst ha0
    rw [decide_eq_true_eq]
    norm_num
  have hrec : recentOf 0 (List.replicate 60 (0 : ℚ)) = List.replicate 60 (0 : ℚ) := by
    unfold recentOf
    rw [List.filter_eq_self]
    intro a ha
    have ha0 : a = 0 := List.eq_of_mem_replicate ha
    subst ha0
    rw [decide_eq_true_eq]
    norm_num
  have hq : MAX_REQUESTS_PER_MINUTE ≤
      (recentOf 0 (pruneState 0 (List.replicate 60 (0 : ℚ)))).length := by
    rw [hpr, hrec, List.length_replicate]
    exact Nat.le_refl 60
  exact ⟨(h.1 0 hmem).1, h.2 (List.replicate 60 (0 : ℚ)) 0 "x" id (Or.inl hq)⟩
